import Mathlib

/-!
Shallow embedding of `src/WebMonitor.py` (SeminarTracker).

The spreadsheet is modelled as a list of rows, each row a list of optional
string cells; reading an unwritten cell yields `none`, exactly as openpyxl
returns `None` for cells that were never assigned.  Row and column indices
are 1-based, as in openpyxl.
-/

namespace WebMonitor

abbrev Row := List (Option String)

abbrev Sheet := List Row

/-- Read cell `c` (1-based) of a row; unwritten cells read as `none`. -/
def getCellRow (row : Row) (c : Nat) : Option String :=
  row.getD (c - 1) none

/-- Read cell at row `r`, column `c` (both 1-based). -/
def getCell (s : Sheet) (r c : Nat) : Option String :=
  getCellRow (s.getD (r - 1) []) c

/-- Pad a row with empty cells up to length `n`. -/
def padTo (row : Row) (n : Nat) : Row :=
  row ++ List.replicate (n - row.length) none

/-- Write value `v` into cell `c` (1-based) of a row, padding as needed. -/
def setCellRow (row : Row) (c : Nat) (v : String) : Row :=
  (padTo row c).set (c - 1) (some v)

/-- Pad a sheet with empty rows up to `n` rows. -/
def padRows (s : Sheet) (n : Nat) : Sheet :=
  s ++ List.replicate (n - s.length) []

/-- Write value `v` into row `r`, column `c` (1-based), padding as needed.
This models `sheet.cell(row=r, column=c, value=v)`. -/
def setCell (s : Sheet) (r c : Nat) (v : String) : Sheet :=
  (padRows s r).set (r - 1) (setCellRow ((padRows s r).getD (r - 1) []) c v)

/-- openpyxl's `sheet.max_row`: at least 1 even for an empty sheet. -/
def maxRow (s : Sheet) : Nat := max 1 s.length

/-- The header row written on first run (`sheet["B1"] = ...` etc. in
`save_to_excel`): columns 2,3,4 then 6,7,8,9 — column 5 (E) is skipped. -/
def initialSheet : Sheet :=
  [[none, some "Seminar Title", some "Date of Execution", some "Seminar Details",
    none, some "Date of Update", some "New Seminar Details",
    some "Date of Update 2", some "New Seminar Details 2"]]

/-- `existing_titles = [sheet.cell(row=i, column=2).value for i in range(2, sheet.max_row + 1)]` -/
def existingTitles (s : Sheet) : List (Option String) :=
  (List.range (maxRow s - 1)).map (fun i => getCell s (i + 2) 2)

/-- The probing loop
`last_column = 4; while sheet.cell(row=row, column=last_column).value is not None: last_column += 2`,
started at column `c`. Terminates because reads past the row's end are `none`. -/
def probeFrom (row : Row) (c : Nat) : Nat :=
  if getCellRow row c ≠ none then probeFrom row (c + 2) else c
termination_by row.length + 2 - c
decreasing_by
  rename_i h
  have hc : c - 1 < row.length := by
    by_contra hge
    exact h (List.getD_eq_default _ _ (Nat.le_of_not_lt hge))
  omega

/-- The body of the `for i in range(len(seminar_titles))` loop in
`save_to_excel`, for one candidate `(title, details)`.  `existing` is the
snapshot of column-B values taken before the loop. -/
def processOne (existing : List (Option String)) (execution_date : String)
    (s : Sheet) (title details : String) : Sheet :=
  if (some title) ∈ existing then
    let index := existing.indexOf (some title)
    let row := index + 2
    let last_column := probeFrom (s.getD (row - 1) []) 4
    let last_details := getCell s row (last_column - 1)
    if (some details) ≠ last_details then
      setCell (setCell s row last_column execution_date) row (last_column + 1) details
    else s
  else
    let new_row := maxRow s + 1
    setCell (setCell (setCell s new_row 2 title) new_row 3 execution_date) new_row 4 details

/-- The candidate loop of `save_to_excel`.  Python indexes
`seminar_details[i]` for `i < len(seminar_titles)`; when the details list is
too short this raises `IndexError`, modelled as `none`. -/
def saveLoop (existing : List (Option String)) (execution_date : String) :
    List String → List String → Sheet → Option Sheet
  | [], _, s => some s
  | _ :: _, [], _ => none
  | t :: ts, d :: ds, s =>
      saveLoop existing execution_date ts ds (processOne existing execution_date s t d)

/-- `save_to_excel(seminar_titles, seminar_details)`.  `prior` is the loaded
workbook sheet, `none` when the file does not exist (then a fresh sheet with
the header row is created). -/
def save_to_excel (prior : Option Sheet) (execution_date : String)
    (seminar_titles seminar_details : List String) : Option Sheet :=
  let s := prior.getD initialSheet
  saveLoop (existingTitles s) execution_date seminar_titles seminar_details s

/-! ### Derived notions used to state the claims -/

/-- The column at which the probing loop of `save_to_excel` stops for row `r`:
the column the next update pair's timestamp would be written to. -/
def lastColumnOf (s : Sheet) (r : Nat) : Nat :=
  probeFrom (s.getD (r - 1) []) 4

/-- The most recently stored content of row `r`: the creation content
(column 4) when no update pair has been written, otherwise the content cell
of the last update pair. -/
def lastStoredContent (s : Sheet) (r : Nat) : Option String :=
  if lastColumnOf s r ≤ 6 then getCell s r 4 else getCell s r (lastColumnOf s r - 1)

/-- Number of stored versions in row `r` (creation version plus update pairs),
read off from where the probing loop stops. -/
def versionCount (s : Sheet) (r : Nat) : Nat :=
  (lastColumnOf s r - 4) / 2

/-- Row `r` holds exactly `k ≥ 1` versions laid out as the program writes
them: creation content in column 4, column 5 unused, update pair `j - 1`
(the `j`-th version, `2 ≤ j ≤ k`) in columns `2*j+2` and `2*j+3`, and every
column from `2*k+4` on unused. -/
def rowVersions (s : Sheet) (r k : Nat) : Prop :=
  1 ≤ k ∧
  getCell s r 4 ≠ none ∧
  getCell s r 5 = none ∧
  (∀ j, 2 ≤ j → j ≤ k → getCell s r (2 * j + 2) ≠ none ∧ getCell s r (2 * j + 3) ≠ none) ∧
  (∀ c, 2 * k + 4 ≤ c → getCell s r c = none)

/-- Structural well-formedness of a sheet: whenever an update-pair content
cell (odd column `2*k+5`) is occupied, so is its timestamp cell (column
`2*k+4`).  Every sheet the program writes satisfies this. -/
def pairedCells (s : Sheet) : Prop :=
  ∀ r k, getCell s r (2 * k + 5) ≠ none → getCell s r (2 * k + 4) ≠ none

/-- The keys (column-2 values) of the data rows (rows 2 and below). -/
def keyCells (s : Sheet) : List String :=
  (s.drop 1).filterMap (fun row => getCellRow row 2)

/-- Key uniqueness: no two data rows share a column-2 value. -/
def keysUnique (s : Sheet) : Prop :=
  (keyCells s).Nodup

/-! ### Crawler, scraper and entry point

HTTP and HTML parsing are external collaborators; a fetched detail page is
abstracted to its status code, the text of its first `h1` tag (if any) and
the text of its sidebar div (if any), which is all `scrape_seminar_page`
reads from it. -/

/-- Abstraction of one fetched detail page. -/
structure Page where
  status : Nat
  h1 : Option String
  sidebar : Option String
  deriving DecidableEq

/-- `scrape_seminar_page(seminar_url, seminar_titles, seminar_details)`:
returns the two lists after the call (the Python function mutates them in
place).  On status 200 it appends the title (or a sentinel) and the sidebar
text (or a sentinel); on any other status it appends nothing. -/
def scrape_seminar_page (page : Page) (seminar_titles seminar_details : List String) :
    List String × List String :=
  if page.status = 200 then
    let seminar_name := page.h1.getD "No seminar name found"
    let titles := seminar_titles ++ [seminar_name]
    match page.sidebar with
    | some raw_text => (titles, seminar_details ++ [raw_text])
    | none => (titles, seminar_details ++ ["No details found."])
  else
    (seminar_titles, seminar_details)

/-- The scraping loop of `main`: scrape every discovered page in order,
starting from two empty lists. -/
def scrapeAll (pages : List Page) : List String × List String :=
  pages.foldl (fun acc page => scrape_seminar_page page acc.1 acc.2) ([], [])

/-- Abstraction of one run's network environment: the listing page's status,
the seminar links harvested from it when it parses (already filtered by
organizer, in document order), and the page behind each link. -/
structure Env where
  listingStatus : Nat
  listingLinks : List String
  pages : String → Page

/-- `get_seminar_links(listing_url)`: on a non-200 listing response it
prints a message and returns the empty list; otherwise it returns the
filtered links. -/
def get_seminar_links (env : Env) : List String :=
  if env.listingStatus ≠ 200 then [] else env.listingLinks

/-- Observable outcome of one invocation: the process exit status, whether
`save_to_excel` was reached, and the sheet as persisted (unchanged when the
run never reached the save). -/
structure RunResult where
  exitCode : Nat
  reconcileInvoked : Bool
  finalSheet : Option Sheet
  deriving DecidableEq

/-- `main()`: discover links, scrape each, then save.  Both the non-200
listing branch and the completed branch return normally, so the interpreter
exits with status 0; only an uncaught exception (an `IndexError` inside
`save_to_excel`, modelled by `none`) would exit non-zero. -/
def main (env : Env) (prior : Option Sheet) (execution_date : String) : RunResult :=
  let seminar_links := get_seminar_links env
  if seminar_links.isEmpty then
    { exitCode := 0, reconcileInvoked := false, finalSheet := prior }
  else
    let scraped := scrapeAll (seminar_links.map env.pages)
    match save_to_excel prior execution_date scraped.1 scraped.2 with
    | some s => { exitCode := 0, reconcileInvoked := true, finalSheet := some s }
    | none => { exitCode := 1, reconcileInvoked := true, finalSheet := none }

/-! ### Concrete sheets used in the end-to-end scenarios -/

/-- Table after scenario A: one run on a fresh file with the single
candidate ("Seminar X", "details v1"). -/
def sampleCreated : Sheet :=
  initialSheet ++ [[none, some "Seminar X", some "D1", some "details v1"]]

/-- Table produced from `sampleCreated` by a second run with the identical
candidate ("Seminar X", "details v1"): the program appends a spurious
update pair in columns 6-7. -/
def sampleSpurious : Sheet :=
  initialSheet ++
    [[none, some "Seminar X", some "D1", some "details v1", none, some "D2", some "details v1"]]

/-- Table produced from `sampleCreated` by a run with changed content
("Seminar X", "details v2"): the update pair lands in columns 6-7. -/
def sampleUpdated : Sheet :=
  initialSheet ++
    [[none, some "Seminar X", some "D1", some "details v1", none, some "D2", some "details v2"]]

/-- Table after a first run with two fresh candidates A and B. -/
def sampleTwo : Sheet :=
  initialSheet ++
    [[none, some "A", some "D1", some "a"], [none, some "B", some "D1", some "b"]]

/-- Table after repeating the identical batch on `sampleTwo`: both rows
gain a spurious update pair. -/
def sampleTwoAfter : Sheet :=
  initialSheet ++
    [[none, some "A", some "D1", some "a", none, some "D2", some "a"],
     [none, some "B", some "D1", some "b", none, some "D2", some "b"]]

/-- Table produced from the empty file by a batch naming the same new key
twice: two rows share the key X. -/
def sampleDupKeys : Sheet :=
  initialSheet ++
    [[none, some "X", some "D1", some "a"], [none, some "X", some "D1", some "b"]]

/-- An environment whose listing page answers 404. -/
def envListingDown : Env :=
  { listingStatus := 404, listingLinks := ["https://ekek.gr/seminaria/x/"],
    pages := fun _ => { status := 200, h1 := some "T", sidebar := some "S" } }

/-! ### Basic lemmas about cell access -/

theorem getCell_def (s : Sheet) (r c : Nat) :
    getCell s r c = getCellRow (s.getD (r - 1) []) c := rfl

theorem getCellRow_of_length_lt (row : Row) (c : Nat) (h : row.length < c) :
    getCellRow row c = none := by
  unfold getCellRow
  exact List.getD_eq_default _ _ (by omega)

theorem length_padTo (row : Row) (n : Nat) : (padTo row n).length = max row.length n := by
  simp [padTo]; omega

theorem getD_padTo (row : Row) (n i : Nat) : (padTo row n).getD i none = row.getD i none := by
  unfold padTo
  rcases Nat.lt_or_ge i row.length with h | h
  · rw [List.getD_eq_getElem?_getD, List.getD_eq_getElem?_getD, List.getElem?_append_left h]
  · rw [List.getD_eq_default _ _ h, List.getD_eq_getElem?_getD,
      List.getElem?_append_right h, List.getElem?_replicate]
    split <;> rfl

theorem length_padRows (s : Sheet) (n : Nat) : (padRows s n).length = max s.length n := by
  simp [padRows]; omega

theorem getD_padRows (s : Sheet) (n i : Nat) : (padRows s n).getD i [] = s.getD i [] := by
  unfold padRows
  rcases Nat.lt_or_ge i s.length with h | h
  · rw [List.getD_eq_getElem?_getD, List.getD_eq_getElem?_getD, List.getElem?_append_left h]
  · rw [List.getD_eq_default _ _ h, List.getD_eq_getElem?_getD,
      List.getElem?_append_right h, List.getElem?_replicate]
    split <;> rfl

theorem getCellRow_setCellRow_self (row : Row) (c : Nat) (v : String) (hc : 1 ≤ c) :
    getCellRow (setCellRow row c v) c = some v := by
  unfold getCellRow setCellRow
  rw [List.getD_eq_getElem?_getD, List.getElem?_set_self]
  · rfl
  · rw [length_padTo]; omega

theorem getCellRow_setCellRow_ne (row : Row) (c c' : Nat) (v : String)
    (hc : 1 ≤ c) (hc' : 1 ≤ c') (hne : c' ≠ c) :
    getCellRow (setCellRow row c v) c' = getCellRow row c' := by
  unfold getCellRow setCellRow
  rw [List.getD_eq_getElem?_getD, List.getElem?_set_ne (by omega),
    ← List.getD_eq_getElem?_getD]
  exact getD_padTo row c (c' - 1)

theorem length_setCellRow (row : Row) (c : Nat) (v : String) :
    (setCellRow row c v).length = max row.length c := by
  simp [setCellRow, length_padTo]

theorem length_setCell (s : Sheet) (r c : Nat) (v : String) :
    (setCell s r c v).length = max s.length r := by
  simp [setCell, length_padRows]

theorem getCell_setCell_self (s : Sheet) (r c : Nat) (v : String) (hr : 1 ≤ r) (hc : 1 ≤ c) :
    getCell (setCell s r c v) r c = some v := by
  unfold getCell setCell
  rw [List.getD_eq_getElem?_getD, List.getElem?_set_self (by rw [length_padRows]; omega)]
  exact getCellRow_setCellRow_self _ c v hc

theorem getCell_setCell_ne (s : Sheet) (r c r' c' : Nat) (v : String)
    (hr : 1 ≤ r) (hc : 1 ≤ c) (hr' : 1 ≤ r') (hc' : 1 ≤ c')
    (hne : r' ≠ r ∨ c' ≠ c) :
    getCell (setCell s r c v) r' c' = getCell s r' c' := by
  unfold getCell setCell
  by_cases hrr : r' = r
  · -- same row, so the columns must differ
    subst hrr
    have hcc : c' ≠ c := hne.resolve_left (fun h => h rfl)
    rw [List.getD_eq_getElem?_getD, List.getElem?_set_self (by rw [length_padRows]; omega),
      Option.getD_some, getCellRow_setCellRow_ne _ c c' v hc hc' hcc, getD_padRows]
  · rw [List.getD_eq_getElem?_getD, List.getElem?_set_ne (show r - 1 ≠ r' - 1 by omega),
      ← List.getD_eq_getElem?_getD, getD_padRows]

theorem getCell_row_zero (s : Sheet) (c : Nat) : getCell s 0 c = getCell s 1 c := rfl

theorem getCell_col_zero (s : Sheet) (r : Nat) : getCell s r 0 = getCell s r 1 := rfl

theorem getCell_of_length_lt (s : Sheet) (r c : Nat) (h : s.length < r) :
    getCell s r c = none := by
  unfold getCell
  rw [List.getD_eq_default _ _ (by omega)]
  cases c <;> rfl

/-! ### The probing loop -/

theorem probeFrom_stop (row : Row) (c : Nat) (h : getCellRow row c = none) :
    probeFrom row c = c := by
  unfold probeFrom
  simp [h]

theorem probeFrom_step (row : Row) (c : Nat) (h : getCellRow row c ≠ none) :
    probeFrom row c = probeFrom row (c + 2) := by
  conv_lhs => unfold probeFrom
  simp [h]

/-- Computation rule for the probing loop: if the first `m` probed cells are
occupied and the next one is free, the loop stops there. -/
theorem probeFrom_eq_of (row : Row) (c m : Nat)
    (h1 : ∀ i, i < m → getCellRow row (c + 2 * i) ≠ none)
    (h2 : getCellRow row (c + 2 * m) = none) :
    probeFrom row c = c + 2 * m := by
  induction m generalizing c with
  | zero => simpa using probeFrom_stop row c (by simpa using h2)
  | succ m ih =>
    rw [probeFrom_step row c (by simpa using h1 0 (by omega))]
    have := ih (c + 2) (fun i hi => by
      have := h1 (i + 1) (by omega)
      simpa [Nat.mul_add, Nat.add_assoc, Nat.add_comm, Nat.add_left_comm] using this)
      (by simpa [Nat.mul_add, Nat.add_assoc, Nat.add_comm, Nat.add_left_comm] using h2)
    rw [this]; ring

/-- Full characterisation of the probing loop: it stops at a free cell an even
number of steps from the start, having passed only occupied cells. -/
theorem probeFrom_spec (row : Row) (c : Nat) :
    getCellRow row (probeFrom row c) = none ∧
    ∃ k, probeFrom row c = c + 2 * k ∧ ∀ i, i < k → getCellRow row (c + 2 * i) ≠ none := by
  have key : ∀ n (c : Nat), row.length + 2 - c ≤ n →
      getCellRow row (probeFrom row c) = none ∧
      ∃ k, probeFrom row c = c + 2 * k ∧ ∀ i, i < k → getCellRow row (c + 2 * i) ≠ none := by
    intro n
    induction n with
    | zero =>
      intro c hc
      have hnone : getCellRow row c = none := getCellRow_of_length_lt row c (by omega)
      rw [probeFrom_stop row c hnone]
      exact ⟨hnone, 0, by simp, fun i hi => absurd hi (by omega)⟩
    | succ n ih =>
      intro c hc
      by_cases h : getCellRow row c = none
      · rw [probeFrom_stop row c h]
        exact ⟨h, 0, by simp, fun i hi => absurd hi (by omega)⟩
      · have hlt : c - 1 < row.length := by
          by_contra hge
          exact h (List.getD_eq_default _ _ (by omega))
        rw [probeFrom_step row c h]
        obtain ⟨hnone, k, hk, hall⟩ := ih (c + 2) (by omega)
        refine ⟨hnone, k + 1, by omega, ?_⟩
        intro i hi
        match i with
        | 0 => simpa using h
        | j + 1 =>
          have := hall j (by omega)
          simpa [Nat.mul_add, Nat.add_assoc, Nat.add_comm, Nat.add_left_comm] using this
  exact key (row.length + 2) c (Nat.sub_le _ _)

theorem probeFrom_none (row : Row) (c : Nat) : getCellRow row (probeFrom row c) = none :=
  (probeFrom_spec row c).1

theorem probeFrom_exists (row : Row) (c : Nat) : ∃ k, probeFrom row c = c + 2 * k :=
  ⟨(probeFrom_spec row c).2.choose, (probeFrom_spec row c).2.choose_spec.1⟩

theorem le_probeFrom (row : Row) (c : Nat) : c ≤ probeFrom row c := by
  obtain ⟨k, hk⟩ := probeFrom_exists row c
  omega

/-- On a freshly created row (creation content in column 4, nothing after),
the probing loop stops at column 6. -/
theorem probeFrom_creation_shape (a b c : Option String) (d : String) :
    probeFrom [a, b, c, some d] 4 = 6 := by
  have h := probeFrom_eq_of [a, b, c, some d] 4 1 ?occ ?free
  · simpa using h
  case occ =>
    intro i hi
    match i, hi with
    | 0, _ => simp [getCellRow]
  case free => simp [getCellRow]

/-- On a row with the creation content and one update pair (columns 6-7),
the probing loop stops at column 8. -/
theorem probeFrom_one_update_shape (a b c e g : Option String) (d f : String) :
    probeFrom [a, b, c, some d, e, some f, g] 4 = 8 := by
  have h := probeFrom_eq_of [a, b, c, some d, e, some f, g] 4 2 ?occ ?free
  · simpa using h
  case occ =>
    intro i hi
    match i, hi with
    | 0, _ => simp [getCellRow]
    | 1, _ => simp [getCellRow]
  case free => simp [getCellRow]

/-! ### The CREATE path -/

theorem set_append_length {α : Type} (l : List α) (a b : α) :
    (l ++ [a]).set l.length b = l ++ [b] := by
  induction l with
  | nil => rfl
  | cons x xs ih => simp [List.set, ih]

theorem padRows_succ_self (s : Sheet) : padRows s (s.length + 1) = s ++ [[]] := by
  simp [padRows]

/-- On a candidate whose title is not among the existing ones, the loop body
appends exactly one fresh row `[_, title, date, details]` at the bottom. -/
theorem processOne_create (existing : List (Option String)) (date : String)
    (s : Sheet) (title details : String)
    (hlen : 1 ≤ s.length) (hmem : (some title) ∉ existing) :
    processOne existing date s title details =
      s ++ [[none, some title, some date, some details]] := by
  unfold processOne
  rw [if_neg hmem]
  show setCell (setCell (setCell s (maxRow s + 1) 2 title) (maxRow s + 1) 3 date)
      (maxRow s + 1) 4 details = _
  have hmax : maxRow s = s.length := by unfold maxRow; omega
  have h1 : setCell s (maxRow s + 1) 2 title = s ++ [[none, some title]] := by
    unfold setCell
    rw [hmax, padRows_succ_self]
    have hget : (s ++ [[]]).getD (s.length + 1 - 1) [] = [] := by
      rw [List.getD_eq_getElem?_getD, List.getElem?_append_right (by omega)]
      simp
    rw [hget, show s.length + 1 - 1 = s.length from rfl,
      show (s ++ [([] : Row)]) = s ++ [([] : Row)] from rfl, set_append_length]
    rfl
  rw [h1]
  have hlen1 : (s ++ [[none, some title]]).length = s.length + 1 := by simp
  have h2 : setCell (s ++ [[none, some title]]) (maxRow s + 1) 3 date =
      s ++ [[none, some title, some date]] := by
    unfold setCell
    rw [hmax]
    have hpad : padRows (s ++ [[none, some title]]) (s.length + 1) = s ++ [[none, some title]] := by
      unfold padRows
      rw [hlen1]
      simp
    rw [hpad]
    have hget : (s ++ [[none, some title]]).getD (s.length + 1 - 1) [] = [none, some title] := by
      rw [List.getD_eq_getElem?_getD, List.getElem?_append_right (by omega)]
      simp
    rw [hget, show s.length + 1 - 1 = s.length from rfl, set_append_length]
    rfl
  rw [h2]
  unfold setCell
  rw [hmax]
  have hlen2 : (s ++ [[none, some title, some date]]).length = s.length + 1 := by simp
  have hpad : padRows (s ++ [[none, some title, some date]]) (s.length + 1) =
      s ++ [[none, some title, some date]] := by
    unfold padRows
    rw [hlen2]
    simp
  rw [hpad]
  have hget : (s ++ [[none, some title, some date]]).getD (s.length + 1 - 1) [] =
      [none, some title, some date] := by
    rw [List.getD_eq_getElem?_getD, List.getElem?_append_right (by omega)]
    simp
  rw [hget, show s.length + 1 - 1 = s.length from rfl, set_append_length]
  rfl

/-! ### The APPEND path -/

/-- When the title exists and the code's comparison fires, the loop body is
exactly two cell writes: the timestamp at the probed column and the content
right of it. -/
theorem processOne_update_eq (existing : List (Option String)) (date : String)
    (s : Sheet) (title details : String)
    (hmem : (some title) ∈ existing)
    (hcond : some details ≠ getCell s (existing.indexOf (some title) + 2)
      (lastColumnOf s (existing.indexOf (some title) + 2) - 1)) :
    processOne existing date s title details =
      setCell (setCell s (existing.indexOf (some title) + 2)
          (lastColumnOf s (existing.indexOf (some title) + 2)) date)
        (existing.indexOf (some title) + 2)
        (lastColumnOf s (existing.indexOf (some title) + 2) + 1) details := by
  unfold processOne
  rw [if_pos hmem]
  show (if some details ≠ getCell s (existing.indexOf (some title) + 2)
      (lastColumnOf s (existing.indexOf (some title) + 2) - 1) then
    setCell (setCell s (existing.indexOf (some title) + 2)
        (lastColumnOf s (existing.indexOf (some title) + 2)) date)
      (existing.indexOf (some title) + 2)
      (lastColumnOf s (existing.indexOf (some title) + 2) + 1) details
    else s) = _
  rw [if_pos hcond]

/-- When the title exists and the comparison does not fire, the loop body
leaves the sheet untouched. -/
theorem processOne_noop_eq (existing : List (Option String)) (date : String)
    (s : Sheet) (title details : String)
    (hmem : (some title) ∈ existing)
    (hcond : some details = getCell s (existing.indexOf (some title) + 2)
      (lastColumnOf s (existing.indexOf (some title) + 2) - 1)) :
    processOne existing date s title details = s := by
  unfold processOne
  rw [if_pos hmem]
  show (if some details ≠ getCell s (existing.indexOf (some title) + 2)
      (lastColumnOf s (existing.indexOf (some title) + 2) - 1) then
    setCell (setCell s (existing.indexOf (some title) + 2)
        (lastColumnOf s (existing.indexOf (some title) + 2)) date)
      (existing.indexOf (some title) + 2)
      (lastColumnOf s (existing.indexOf (some title) + 2) + 1) details
    else s) = _
  rw [if_neg (show ¬(some details ≠ getCell s (existing.indexOf (some title) + 2)
    (lastColumnOf s (existing.indexOf (some title) + 2) - 1)) from fun h => h hcond)]

/-- For a row holding exactly `k` versions, the probing loop stops at column
`2*k+4`, the first unused pair's timestamp column. -/
theorem rowVersions_lastColumn (s : Sheet) (r k : Nat) (hrow : rowVersions s r k) :
    lastColumnOf s r = 2 * k + 4 := by
  obtain ⟨hk, h4, h5, hpairs, htail⟩ := hrow
  unfold lastColumnOf
  rw [probeFrom_eq_of _ 4 k ?occ ?free]
  · omega
  case occ =>
    intro i hi
    show getCell s r (4 + 2 * i) ≠ none
    match i with
    | 0 => simpa using h4
    | j + 1 =>
      have := (hpairs (j + 2) (by omega) (by omega)).1
      have harith : 2 * (j + 2) + 2 = 4 + 2 * (j + 1) := by ring
      rwa [harith] at this
  case free =>
    show getCell s r (4 + 2 * k) = none
    exact htail _ (by omega)

/-- For a row holding exactly `k` versions, the code's comparison fires
whenever the candidate content differs from the most recently stored content
(for `k = 1` it even fires unconditionally, reading the empty column 5). -/
theorem update_condition_of_diff (s : Sheet) (r k : Nat) (details : String)
    (hrow : rowVersions s r k)
    (hdiff : some details ≠ lastStoredContent s r) :
    some details ≠ getCell s r (lastColumnOf s r - 1) := by
  have hlast := rowVersions_lastColumn s r k hrow
  obtain ⟨hk, h4, h5, hpairs, htail⟩ := hrow
  rw [hlast]
  by_cases hk1 : k = 1
  · subst hk1
    rw [show 2 * 1 + 4 - 1 = 5 by omega, h5]
    simp
  · have hk2 : 2 ≤ k := by omega
    rw [show 2 * k + 4 - 1 = 2 * k + 3 by omega]
    unfold lastStoredContent at hdiff
    rw [hlast, if_neg (by omega), show 2 * k + 4 - 1 = 2 * k + 3 by omega] at hdiff
    exact hdiff

/-- Full description of the APPEND path for a row holding `k` versions whose
candidate content differs from the most recently stored content: the two
cells of the first unused pair are written, every other cell is untouched,
and the row now holds `k + 1` versions. -/
theorem processOne_update_spec (s : Sheet) (date title details : String) (k : Nat)
    (existing : List (Option String))
    (hmem : (some title) ∈ existing)
    (hrow : rowVersions s (existing.indexOf (some title) + 2) k)
    (hdiff : some details ≠ lastStoredContent s (existing.indexOf (some title) + 2)) :
    getCell (processOne existing date s title details)
        (existing.indexOf (some title) + 2) (2 * k + 4) = some date ∧
    getCell (processOne existing date s title details)
        (existing.indexOf (some title) + 2) (2 * k + 5) = some details ∧
    (∀ r' c', 1 ≤ r' → 1 ≤ c' →
      ¬(r' = existing.indexOf (some title) + 2 ∧ (c' = 2 * k + 4 ∨ c' = 2 * k + 5)) →
      getCell (processOne existing date s title details) r' c' = getCell s r' c') ∧
    rowVersions (processOne existing date s title details)
        (existing.indexOf (some title) + 2) (k + 1) ∧
    versionCount s (existing.indexOf (some title) + 2) = k ∧
    versionCount (processOne existing date s title details)
        (existing.indexOf (some title) + 2) = k + 1 := by
  set r := existing.indexOf (some title) + 2 with hr
  have hlast := rowVersions_lastColumn s r k hrow
  have hcond := update_condition_of_diff s r k details hrow hdiff
  have heq := processOne_update_eq existing date s title details hmem (by rw [← hr]; exact hcond)
  rw [← hr, hlast] at heq
  obtain ⟨hk, h4, h5, hpairs, htail⟩ := hrow
  have hr2 : 2 ≤ r := by omega
  -- the two written cells
  have hts : getCell (processOne existing date s title details) r (2 * k + 4) = some date := by
    rw [heq, getCell_setCell_ne _ _ _ _ _ _ (by omega) (by omega) (by omega) (by omega)
      (Or.inr (by omega)), getCell_setCell_self _ _ _ _ (by omega) (by omega)]
  have hcs : getCell (processOne existing date s title details) r (2 * k + 5) = some details := by
    rw [heq, getCell_setCell_self _ _ _ _ (by omega) (by omega)]
  -- the frame
  have hframe : ∀ r' c', 1 ≤ r' → 1 ≤ c' →
      ¬(r' = r ∧ (c' = 2 * k + 4 ∨ c' = 2 * k + 5)) →
      getCell (processOne existing date s title details) r' c' = getCell s r' c' := by
    intro r' c' hr' hc' hne
    rw [heq, getCell_setCell_ne _ _ _ _ _ _ (by omega) (by omega) hr' hc' (by tauto),
      getCell_setCell_ne _ _ _ _ _ _ (by omega) (by omega) hr' hc' (by tauto)]
  refine ⟨hts, hcs, hframe, ⟨by omega, ?_, ?_, ?_, ?_⟩, ?_, ?_⟩
  · rw [hframe r 4 (by omega) (by omega) (by omega)]; exact h4
  · rw [hframe r 5 (by omega) (by omega) (by omega)]; exact h5
  · intro j hj2 hjk
    by_cases hj : j ≤ k
    · constructor
      · rw [hframe r (2 * j + 2) (by omega) (by omega) (by omega)]
        exact (hpairs j hj2 hj).1
      · rw [hframe r (2 * j + 3) (by omega) (by omega) (by omega)]
        exact (hpairs j hj2 hj).2
    · have hjeq : j = k + 1 := by omega
      subst hjeq
      constructor
      · rw [show 2 * (k + 1) + 2 = 2 * k + 4 by ring, hts]; simp
      · rw [show 2 * (k + 1) + 3 = 2 * k + 5 by ring, hcs]; simp
  · intro c hc
    rw [hframe r c (by omega) (by omega) (by omega)]
    exact htail c (by omega)
  · unfold versionCount
    rw [hlast]; omega
  · unfold versionCount
    have : lastColumnOf (processOne existing date s title details) r = 2 * k + 6 := by
      unfold lastColumnOf
      rw [probeFrom_eq_of _ 4 (k + 1) ?occ2 ?free2]
      · omega
      case occ2 =>
        intro i hi
        show getCell (processOne existing date s title details) r (4 + 2 * i) ≠ none
        by_cases hik : i < k
        · rw [hframe r (4 + 2 * i) (by omega) (by omega) (by omega)]
          match i, hik with
          | 0, _ => simpa using h4
          | j + 1, hik =>
            have := (hpairs (j + 2) (by omega) (by omega)).1
            have harith : 2 * (j + 2) + 2 = 4 + 2 * (j + 1) := by ring
            rwa [harith] at this
        · have h48 : 4 + 2 * i = 2 * k + 4 := by omega
          rw [h48, hts]
          simp
      case free2 =>
        show getCell (processOne existing date s title details) r (4 + 2 * (k + 1)) = none
        rw [hframe r (4 + 2 * (k + 1)) (by omega) (by omega) (by omega)]
        exact htail _ (by omega)
    rw [this]; omega

/-! ### Monotonicity: cells are never overwritten -/

theorem getCellRow_nil (c : Nat) : getCellRow [] c = none := by
  unfold getCellRow
  simp

theorem getCell_append_lt (s l : Sheet) (r c : Nat) (h : r - 1 < s.length) :
    getCell (s ++ l) r c = getCell s r c := by
  unfold getCell
  rw [List.getD_eq_getElem?_getD, List.getElem?_append_left h, ← List.getD_eq_getElem?_getD]

theorem getCell_append_eq (s : Sheet) (nr : Row) (r c : Nat) (h : r - 1 = s.length) :
    getCell (s ++ [nr]) r c = getCellRow nr c := by
  unfold getCell
  rw [List.getD_eq_getElem?_getD, List.getElem?_append_right (by omega), h]
  simp

theorem getCell_some_lt (s : Sheet) (r c : Nat) (v : String)
    (h : getCell s r c = some v) : r - 1 < s.length := by
  by_contra hge
  rw [getCell_def, List.getD_eq_default _ _ (by omega), getCellRow_nil] at h
  exact Option.noConfusion h

theorem pairedCells_of (s : Sheet)
    (h : ∀ r k, 1 ≤ r → getCell s r (2 * k + 5) ≠ none → getCell s r (2 * k + 4) ≠ none) :
    pairedCells s := by
  intro r k hk
  match r with
  | 0 => exact h 1 k (by omega) hk
  | r + 1 => exact h (r + 1) k (by omega) hk

/-- One loop iteration never changes an occupied cell, preserves the pairing
invariant, and keeps the sheet nonempty. -/
theorem processOne_mono (existing : List (Option String)) (date : String)
    (s : Sheet) (t d : String) (hlen : 1 ≤ s.length) (hp : pairedCells s) :
    (∀ r c v, 1 ≤ r → 1 ≤ c → getCell s r c = some v →
      getCell (processOne existing date s t d) r c = some v) ∧
    pairedCells (processOne existing date s t d) ∧
    1 ≤ (processOne existing date s t d).length := by
  by_cases hmem : (some t) ∈ existing
  · by_cases hcond : some d ≠ getCell s (existing.indexOf (some t) + 2)
        (lastColumnOf s (existing.indexOf (some t) + 2) - 1)
    · -- APPEND: two writes to cells that were empty
      have heq := processOne_update_eq existing date s t d hmem hcond
      set r := existing.indexOf (some t) + 2 with hrdef
      set lc := lastColumnOf s r with hlcdef
      have hlc4 : 4 ≤ lc := le_probeFrom _ 4
      obtain ⟨k0, hk0⟩ : ∃ k0, lc = 4 + 2 * k0 := probeFrom_exists _ 4
      have hnone_lc : getCell s r lc = none := probeFrom_none (s.getD (r - 1) []) 4
      have hnone_lc1 : getCell s r (lc + 1) = none := by
        by_contra h
        have := hp r k0 (by rw [show 2 * k0 + 5 = lc + 1 by omega]; exact h)
        rw [show 2 * k0 + 4 = lc by omega] at this
        exact this hnone_lc
      have hframe : ∀ r' c', 1 ≤ r' → 1 ≤ c' → ¬(r' = r ∧ (c' = lc ∨ c' = lc + 1)) →
          getCell (processOne existing date s t d) r' c' = getCell s r' c' := by
        intro r' c' hr' hc' hne
        rw [heq, getCell_setCell_ne _ _ _ _ _ _ (by omega) (by omega) hr' hc' (by tauto),
          getCell_setCell_ne _ _ _ _ _ _ (by omega) (by omega) hr' hc' (by tauto)]
      have hts : getCell (processOne existing date s t d) r lc = some date := by
        rw [heq, getCell_setCell_ne _ _ _ _ _ _ (by omega) (by omega) (by omega) (by omega)
          (Or.inr (by omega)), getCell_setCell_self _ _ _ _ (by omega) (by omega)]
      have hcs : getCell (processOne existing date s t d) r (lc + 1) = some d := by
        rw [heq, getCell_setCell_self _ _ _ _ (by omega) (by omega)]
      refine ⟨?_, ?_, ?_⟩
      · intro r' c' v hr' hc' hv
        have hne : ¬(r' = r ∧ (c' = lc ∨ c' = lc + 1)) := by
          rintro ⟨rfl, hc | hc⟩ <;> subst hc
          · rw [hv] at hnone_lc; exact Option.noConfusion hnone_lc
          · rw [hv] at hnone_lc1; exact Option.noConfusion hnone_lc1
        rw [hframe r' c' hr' hc' hne, hv]
      · refine pairedCells_of _ (fun r' k' hr' h' => ?_)
        by_cases hcase : r' = r ∧ 2 * k' + 5 = lc + 1
        · rw [hcase.1, show 2 * k' + 4 = lc by omega, hts]
          simp
        · have hne5 : ¬(r' = r ∧ (2 * k' + 5 = lc ∨ 2 * k' + 5 = lc + 1)) := by
            rintro ⟨rfl, h5 | h5⟩
            · omega
            · exact hcase ⟨rfl, h5⟩
          rw [hframe r' (2 * k' + 5) hr' (by omega) hne5] at h'
          have h4 := hp r' k' h'
          by_cases hc4 : r' = r ∧ 2 * k' + 4 = lc
          · rw [hc4.1, hc4.2, hts]
            simp
          · have hne4 : ¬(r' = r ∧ (2 * k' + 4 = lc ∨ 2 * k' + 4 = lc + 1)) := by
              rintro ⟨rfl, hcc | hcc⟩
              · exact hc4 ⟨rfl, hcc⟩
              · omega
            rw [hframe r' (2 * k' + 4) hr' (by omega) hne4]
            exact h4
      · rw [heq, length_setCell, length_setCell]
        omega
    · -- comparison did not fire: the sheet is unchanged
      rw [processOne_noop_eq existing date s t d hmem (by simpa using hcond)]
      exact ⟨fun r c v _ _ hv => hv, hp, hlen⟩
  · -- CREATE: one fresh row appended at the bottom
    have heq := processOne_create existing date s t d hlen hmem
    refine ⟨?_, ?_, ?_⟩
    · intro r c v hr hc hv
      rw [heq, getCell_append_lt _ _ _ _ (getCell_some_lt s r c v hv), hv]
    · refine pairedCells_of _ (fun r' k' hr' h' => ?_)
      rw [heq] at h' ⊢
      rcases Nat.lt_trichotomy (r' - 1) s.length with hlt | hsle | hgt
      · rw [getCell_append_lt _ _ _ _ hlt] at h' ⊢
        exact hp r' k' h'
      · rw [getCell_append_eq _ _ _ _ hsle] at h'
        exact absurd (getCellRow_of_length_lt _ _ (by simp)) h'
      · rw [getCell_def, List.getD_eq_default _ _ (by simp; omega), getCellRow_nil] at h'
        exact absurd rfl h'
    · rw [heq]
      simp

/-! ### The candidate loop -/

theorem saveLoop_nil (existing : List (Option String)) (date : String)
    (ds : List String) (s : Sheet) : saveLoop existing date [] ds s = some s := by
  cases ds <;> rfl

theorem saveLoop_cons (existing : List (Option String)) (date : String)
    (t : String) (ts : List String) (d : String) (ds : List String) (s : Sheet) :
    saveLoop existing date (t :: ts) (d :: ds) s =
      saveLoop existing date ts ds (processOne existing date s t d) := rfl

theorem saveLoop_mono (existing : List (Option String)) (date : String) :
    ∀ (ts ds : List String) (s s' : Sheet), 1 ≤ s.length → pairedCells s →
      saveLoop existing date ts ds s = some s' →
      (∀ r c v, 1 ≤ r → 1 ≤ c → getCell s r c = some v → getCell s' r c = some v) ∧
      pairedCells s' ∧ 1 ≤ s'.length := by
  intro ts
  induction ts with
  | nil =>
    intro ds s s' hlen hp h
    rw [saveLoop_nil] at h
    cases h
    exact ⟨fun r c v _ _ hv => hv, hp, hlen⟩
  | cons t ts ih =>
    intro ds s s' hlen hp h
    cases ds with
    | nil => exact Option.noConfusion h
    | cons d ds =>
      rw [saveLoop_cons] at h
      obtain ⟨hmono, hp1, hlen1⟩ := processOne_mono existing date s t d hlen hp
      obtain ⟨hmono2, hp2, hlen2⟩ := ih ds _ s' hlen1 hp1 h
      exact ⟨fun r c v hr hc hv => hmono2 r c v hr hc (hmono r c v hr hc hv), hp2, hlen2⟩

theorem saveLoop_isSome (existing : List (Option String)) (date : String) :
    ∀ (ts ds : List String) (s : Sheet), ts.length ≤ ds.length →
      (saveLoop existing date ts ds s).isSome := by
  intro ts
  induction ts with
  | nil => intro ds s _; rw [saveLoop_nil]; rfl
  | cons t ts ih =>
    intro ds s hle
    cases ds with
    | nil => simp at hle
    | cons d ds =>
      rw [saveLoop_cons]
      exact ih ds _ (by simpa using hle)

/-! ### Keys of the data rows -/

theorem set_of_getElem? {α : Type} (l : List α) (i : Nat) (x : α) (h : l[i]? = some x) :
    l.set i x = l := by
  apply List.ext_getElem?
  intro n
  rw [List.getElem?_set]
  by_cases hin : i = n
  · subst hin
    rw [if_pos rfl, if_pos (List.getElem?_eq_some_iff.1 h).1, h]
  · rw [if_neg hin]

theorem filterMap_set_of_eq {α β : Type} (g : α → Option β) :
    ∀ (l : List α) (i : Nat) (x : α),
      (∀ y, l[i]? = some y → g x = g y) →
      List.filterMap g (l.set i x) = List.filterMap g l := by
  intro l
  induction l with
  | nil => intro i x _; rfl
  | cons a l ih =>
    intro i x h
    cases i with
    | zero =>
      rw [List.set_cons_zero, List.filterMap_cons, List.filterMap_cons,
        h a (by simp)]
    | succ i =>
      rw [List.set_cons_succ, List.filterMap_cons, List.filterMap_cons,
        ih i x (fun y hy => h y (by simpa using hy))]

theorem keyCells_padRows (s : Sheet) (n : Nat) : keyCells (padRows s n) = keyCells s := by
  unfold keyCells padRows
  cases s with
  | nil =>
    simp only [List.nil_append, List.drop_nil]
    cases n with
    | zero => rfl
    | succ n =>
      rw [show List.replicate (n + 1 - List.length ([] : Sheet)) ([] : Row) =
          List.replicate (n + 1) ([] : Row) by simp,
        show (List.replicate (n + 1) ([] : Row)).drop 1 = List.replicate n [] by simp,
        List.filterMap_replicate]
      rfl
  | cons a l =>
    rw [List.drop_append_of_le_length (by simp), List.filterMap_append]
    simp [List.filterMap_replicate, getCellRow_nil]

theorem keyCells_setCell (s : Sheet) (r c : Nat) (v : String)
    (hr : 2 ≤ r) (hc1 : 1 ≤ c) (hc : c ≠ 2) :
    keyCells (setCell s r c v) = keyCells s := by
  unfold setCell
  rw [← keyCells_padRows s r]
  set l := padRows s r with hl
  unfold keyCells
  rw [List.drop_set, if_neg (by omega), show r - 1 - 1 = r - 2 by omega]
  apply filterMap_set_of_eq
  intro y hy
  have hyl : l.getD (r - 1) [] = y := by
    rw [List.getElem?_drop, show 1 + (r - 2) = r - 1 by omega] at hy
    rw [List.getD_eq_getElem?_getD, hy]
    rfl
  rw [← hyl]
  exact getCellRow_setCellRow_ne _ c 2 v hc1 (by omega) (Ne.symm hc)

theorem keyCells_append_row (s : Sheet) (nr : Row) (hlen : 1 ≤ s.length) :
    keyCells (s ++ [nr]) = keyCells s ++ (getCellRow nr 2).toList := by
  unfold keyCells
  rw [List.drop_append_of_le_length (by omega), List.filterMap_append]
  cases h : getCellRow nr 2 <;> simp [List.filterMap_cons, h]

theorem existingTitles_eq_map (s : Sheet) (hlen : 1 ≤ s.length) :
    existingTitles s = (s.drop 1).map (fun row => getCellRow row 2) := by
  unfold existingTitles
  have hmax : maxRow s = s.length := by unfold maxRow; omega
  apply List.ext_getElem
  · simp [hmax]
  · intro n h1 h2
    rw [List.getElem_map, List.getElem_map, List.getElem_range]
    have h3 : n + 1 < s.length := by
      rw [List.length_map, List.length_drop] at h2
      omega
    have h4 : n < (s.drop 1).length := by
      rw [List.length_drop]
      omega
    have e1 : (s.drop 1)[n]? = some (s.drop 1)[n] := List.getElem?_eq_getElem h4
    rw [List.getElem?_drop, show 1 + n = n + 1 by omega, List.getElem?_eq_getElem h3] at e1
    show getCellRow (s.getD (n + 1) []) 2 = getCellRow ((s.drop 1)[n]) 2
    rw [List.getD_eq_getElem s [] h3, Option.some.inj e1]

theorem mem_keyCells (s : Sheet) (t : String) (hlen : 1 ≤ s.length) :
    t ∈ keyCells s ↔ (some t) ∈ existingTitles s := by
  rw [existingTitles_eq_map s hlen]
  unfold keyCells
  rw [List.mem_filterMap, List.mem_map]

theorem length_processOne (existing : List (Option String)) (date : String)
    (s : Sheet) (t d : String) (hlen : 1 ≤ s.length) :
    1 ≤ (processOne existing date s t d).length := by
  unfold processOne
  by_cases hmem : (some t) ∈ existing
  · rw [if_pos hmem]
    show 1 ≤ (if _ then setCell (setCell s _ _ date) _ _ d else s).length
    split
    · rw [length_setCell, length_setCell]; omega
    · exact hlen
  · rw [if_neg hmem]
    show 1 ≤ (setCell (setCell (setCell s _ 2 t) _ 3 date) _ 4 d).length
    rw [length_setCell, length_setCell, length_setCell]
    omega

/-- One loop iteration either matches an existing title and leaves the key
column unchanged, or appends its title at the end of the key column. -/
theorem keyCells_processOne (existing : List (Option String)) (date : String)
    (s : Sheet) (t d : String) (hlen : 1 ≤ s.length) :
    ((some t) ∈ existing ∧ keyCells (processOne existing date s t d) = keyCells s) ∨
    ((some t) ∉ existing ∧ keyCells (processOne existing date s t d) = keyCells s ++ [t]) := by
  by_cases hmem : (some t) ∈ existing
  · left
    refine ⟨hmem, ?_⟩
    by_cases hcond : some d ≠ getCell s (existing.indexOf (some t) + 2)
        (lastColumnOf s (existing.indexOf (some t) + 2) - 1)
    · rw [processOne_update_eq existing date s t d hmem hcond]
      have hlc : 4 ≤ lastColumnOf s (existing.indexOf (some t) + 2) := le_probeFrom _ 4
      rw [keyCells_setCell _ _ _ _ (by omega) (by omega) (by omega),
        keyCells_setCell _ _ _ _ (by omega) (by omega) (by omega)]
    · rw [processOne_noop_eq existing date s t d hmem (by simpa using hcond)]
  · right
    refine ⟨hmem, ?_⟩
    rw [processOne_create existing date s t d hlen hmem,
      keyCells_append_row _ _ hlen]
    rfl

theorem saveLoop_keysUnique (existing : List (Option String)) (date : String) :
    ∀ (ts ds : List String) (s : Sheet), 1 ≤ s.length → (keyCells s).Nodup →
      (∀ u, u ∈ ts → (some u) ∉ existing → u ∉ keyCells s ∧ ts.count u ≤ 1) →
      ∀ s', saveLoop existing date ts ds s = some s' → (keyCells s').Nodup := by
  intro ts
  induction ts with
  | nil =>
    intro ds s _ hnd _ s' h
    rw [saveLoop_nil] at h
    cases h
    exact hnd
  | cons t ts ih =>
    intro ds s hlen hnd hcond s' h
    cases ds with
    | nil => exact Option.noConfusion h
    | cons d ds =>
      rw [saveLoop_cons] at h
      have hlen1 := length_processOne existing date s t d hlen
      rcases keyCells_processOne existing date s t d hlen with ⟨hmem, hkc⟩ | ⟨hmem, hkc⟩
      · refine ih ds _ hlen1 (by rw [hkc]; exact hnd) ?_ s' h
        intro u hu hnew
        obtain ⟨h1, h2⟩ := hcond u (List.mem_cons_of_mem t hu) hnew
        refine ⟨by rw [hkc]; exact h1, ?_⟩
        rw [List.count_cons] at h2
        omega
      · obtain ⟨ht1, ht2⟩ := hcond t (List.mem_cons_self t ts) hmem
        have htts : t ∉ ts := by
          rw [List.count_cons, if_pos (by simp)] at ht2
          exact List.count_eq_zero.1 (by omega)
        refine ih ds _ hlen1 ?_ ?_ s' h
        · rw [hkc, List.nodup_append]
          exact ⟨hnd, List.nodup_singleton t, fun a ha hat => by
            rw [List.mem_singleton] at hat
            exact ht1 (hat ▸ ha)⟩
        · intro u hu hnew
          obtain ⟨h1, h2⟩ := hcond u (List.mem_cons_of_mem t hu) hnew
          refine ⟨?_, ?_⟩
          · rw [hkc, List.mem_append, List.mem_singleton]
            rintro (hc | hc)
            · exact h1 hc
            · exact htts (hc ▸ hu)
          · rw [List.count_cons] at h2
            omega

/-! ### Scraper lemmas -/

theorem scrape_seminar_page_200 (page : Page) (ts ds : List String)
    (h : page.status = 200) :
    scrape_seminar_page page ts ds =
      (ts ++ [page.h1.getD "No seminar name found"],
       ds ++ [page.sidebar.getD "No details found."]) := by
  unfold scrape_seminar_page
  rw [if_pos h]
  cases page.sidebar <;> rfl

theorem scrape_seminar_page_fail (page : Page) (ts ds : List String)
    (h : page.status ≠ 200) :
    scrape_seminar_page page ts ds = (ts, ds) := by
  unfold scrape_seminar_page
  rw [if_neg h]

/-- The scraping fold appends one element per 200-status page to each list. -/
theorem scrapeAll_foldl_lengths (pages : List Page) :
    ∀ (ts ds : List String),
      (pages.foldl (fun acc page => scrape_seminar_page page acc.1 acc.2) (ts, ds)).1.length =
        ts.length + (pages.filter (fun p => p.status = 200)).length ∧
      (pages.foldl (fun acc page => scrape_seminar_page page acc.1 acc.2) (ts, ds)).2.length =
        ds.length + (pages.filter (fun p => p.status = 200)).length := by
  induction pages with
  | nil => intro ts ds; simp
  | cons p pages ih =>
    intro ts ds
    rw [List.foldl_cons]
    by_cases h : p.status = 200
    · rw [scrape_seminar_page_200 p ts ds h]
      obtain ⟨h1, h2⟩ := ih (ts ++ [p.h1.getD "No seminar name found"])
        (ds ++ [p.sidebar.getD "No details found."])
      rw [List.filter_cons_of_pos (by simpa using h)]
      constructor
      · rw [h1]; simp; omega
      · rw [h2]; simp; omega
    · rw [scrape_seminar_page_fail p ts ds h]
      rw [List.filter_cons_of_neg (by simpa using h)]
      exact ih ts ds

theorem scrapeAll_lengths (pages : List Page) :
    (scrapeAll pages).1.length = (pages.filter (fun p => p.status = 200)).length ∧
    (scrapeAll pages).2.length = (pages.filter (fun p => p.status = 200)).length := by
  have := scrapeAll_foldl_lengths pages [] []
  simpa [scrapeAll] using this

theorem save_to_excel_isSome (prior : Option Sheet) (date : String)
    (ts ds : List String) (h : ts.length ≤ ds.length) :
    (save_to_excel prior date ts ds).isSome := by
  unfold save_to_excel
  exact saveLoop_isSome _ date ts ds _ h

theorem pairedCells_initialSheet : pairedCells initialSheet := by
  apply pairedCells_of
  intro r k hr h
  match r, hr with
  | 1, _ =>
    match k with
    | 0 => exact absurd rfl h
    | 1 => decide
    | 2 => decide
    | k + 3 =>
      refine absurd ?_ h
      show getCellRow [none, some "Seminar Title", some "Date of Execution",
        some "Seminar Details", none, some "Date of Update", some "New Seminar Details",
        some "Date of Update 2", some "New Seminar Details 2"] (2 * (k + 3) + 5) = none
      exact getCellRow_of_length_lt _ _
        (by simp only [List.length_cons, List.length_nil]; omega)
  | r + 2, _ => exact absurd rfl h

/-! ### Claim theorems -/

/-- C1: the claim says a record whose most recently stored content equals
the candidate's content suffers no mutation, at every version count
including creation-only records.  The code violates this for creation-only
records: it compares the candidate against column 5 (always empty) instead
of column 4, so a second run with identical content appends a spurious
update pair in columns 6-7. This theorem evaluates the code on that
failing input: after scenario A, the most recently stored content equals
the candidate content, yet `save_to_excel` mutates the record (column 6
gains the new timestamp and the version count rises from 1 to 2). -/
theorem unchanged_content_creation_only_record_is_mutated :
    save_to_excel none "D1" ["Seminar X"] ["details v1"] = some sampleCreated ∧
    lastStoredContent sampleCreated 2 = some "details v1" ∧
    save_to_excel (some sampleCreated) "D2" ["Seminar X"] ["details v1"] = some sampleSpurious ∧
    sampleSpurious ≠ sampleCreated ∧
    getCell sampleCreated 2 6 = none ∧
    getCell sampleSpurious 2 6 = some "D2" ∧
    getCell sampleSpurious 2 7 = some "details v1" ∧
    versionCount sampleCreated 2 = 1 ∧
    versionCount sampleSpurious 2 = 2 := by
  have hp := probeFrom_creation_shape none (some "Seminar X") (some "D1") "details v1"
  have hp2 := probeFrom_one_update_shape none (some "Seminar X") (some "D1") none
    (some "details v1") "details v1" "D2"
  refine ⟨by decide, ?_, ?_, by decide, by decide, by decide, by decide, ?_, ?_⟩
  · simp [lastStoredContent, lastColumnOf, sampleCreated, initialSheet, getCell, getCellRow, hp]
  · simp [save_to_excel, saveLoop, processOne, existingTitles, maxRow, initialSheet,
      sampleCreated, sampleSpurious, hp, getCell, getCellRow, setCell, setCellRow,
      padRows, padTo, List.range_succ, List.indexOf_cons, cond_eq_if, beq_iff_eq]
  · simp [versionCount, lastColumnOf, sampleCreated, initialSheet, getCell, getCellRow, hp]
  · simp [versionCount, lastColumnOf, sampleSpurious, initialSheet, getCell, getCellRow, hp2]

/-- C2: the claim says an immediately repeated identical batch yields CREATE
for every key on the first run and leaves the table unchanged on the second
run.  The first half holds, but on the second run every record (then holding
only its creation version) is spuriously appended to, because the code
compares against the always-empty column 5.  This theorem evaluates the code
on that failing input: the first run creates rows for both keys, and the
second run changes the table. -/
theorem second_identical_run_mutates_every_record :
    save_to_excel none "D1" ["A", "B"] ["a", "b"] = some sampleTwo ∧
    keyCells sampleTwo = ["A", "B"] ∧
    save_to_excel (some sampleTwo) "D2" ["A", "B"] ["a", "b"] = some sampleTwoAfter ∧
    sampleTwoAfter ≠ sampleTwo ∧
    getCell sampleTwoAfter 2 6 = some "D2" ∧
    getCell sampleTwoAfter 3 6 = some "D2" := by
  have hpA := probeFrom_creation_shape none (some "A") (some "D1") "a"
  have hpB := probeFrom_creation_shape none (some "B") (some "D1") "b"
  refine ⟨by decide, by decide, ?_, by decide, by decide, by decide⟩
  simp [save_to_excel, saveLoop, processOne, existingTitles, maxRow, initialSheet,
    sampleTwo, sampleTwoAfter, hpA, hpB, getCell, getCellRow, setCell, setCellRow,
    padRows, padTo, List.range_succ, List.indexOf_cons, cond_eq_if, beq_iff_eq]

/-- C3 counterexample: the claim places the first update timestamp/content
pair in columns 5 and 6.  Running the code on scenario C (update of a
creation-only record) leaves column 5 empty and writes the pair into
columns 6 and 7, so the claim is false at this input. -/
theorem first_update_pair_not_in_cols_5_6 :
    save_to_excel (some sampleCreated) "D2" ["Seminar X"] ["details v2"] = some sampleUpdated ∧
    getCell sampleUpdated 2 5 = none ∧
    getCell sampleUpdated 2 6 = some "D2" ∧
    getCell sampleUpdated 2 7 = some "details v2" ∧
    ¬(getCell sampleUpdated 2 5 = some "D2" ∧ getCell sampleUpdated 2 6 = some "details v2") := by
  have hp := probeFrom_creation_shape none (some "Seminar X") (some "D1") "details v1"
  refine ⟨?_, by decide, by decide, by decide, by decide⟩
  simp [save_to_excel, saveLoop, processOne, existingTitles, maxRow, initialSheet,
    sampleCreated, sampleUpdated, hp, getCell, getCellRow, setCell, setCellRow,
    padRows, padTo, List.range_succ, List.indexOf_cons, cond_eq_if, beq_iff_eq]

/-- C3 amended: the persisted table places the first update
timestamp/content pair in columns 6 and 7 (not 5 and 6) and the second pair
in columns 8 and 9 (not 7 and 8); appending the first update to a record
writes exactly columns 6-7 of its row, and the second update exactly
columns 8-9. -/
theorem update_pairs_live_in_cols_6_7_then_8_9
    (s : Sheet) (date title details : String)
    (hmem : (some title) ∈ existingTitles s) :
    (rowVersions s ((existingTitles s).indexOf (some title) + 2) 1 →
      some details ≠ lastStoredContent s ((existingTitles s).indexOf (some title) + 2) →
      ∃ s', save_to_excel (some s) date [title] [details] = some s' ∧
        getCell s' ((existingTitles s).indexOf (some title) + 2) 6 = some date ∧
        getCell s' ((existingTitles s).indexOf (some title) + 2) 7 = some details ∧
        ∀ r' c', 1 ≤ r' → 1 ≤ c' →
          ¬(r' = (existingTitles s).indexOf (some title) + 2 ∧ (c' = 6 ∨ c' = 7)) →
          getCell s' r' c' = getCell s r' c') ∧
    (rowVersions s ((existingTitles s).indexOf (some title) + 2) 2 →
      some details ≠ lastStoredContent s ((existingTitles s).indexOf (some title) + 2) →
      ∃ s', save_to_excel (some s) date [title] [details] = some s' ∧
        getCell s' ((existingTitles s).indexOf (some title) + 2) 8 = some date ∧
        getCell s' ((existingTitles s).indexOf (some title) + 2) 9 = some details ∧
        ∀ r' c', 1 ≤ r' → 1 ≤ c' →
          ¬(r' = (existingTitles s).indexOf (some title) + 2 ∧ (c' = 8 ∨ c' = 9)) →
          getCell s' r' c' = getCell s r' c') := by
  constructor
  · intro hrow hdiff
    obtain ⟨h1, h2, h3, _, _, _⟩ :=
      processOne_update_spec s date title details 1 (existingTitles s) hmem hrow hdiff
    exact ⟨_, rfl, h1, h2, h3⟩
  · intro hrow hdiff
    obtain ⟨h1, h2, h3, _, _, _⟩ :=
      processOne_update_spec s date title details 2 (existingTitles s) hmem hrow hdiff
    exact ⟨_, rfl, h1, h2, h3⟩

/-- Witness for the amended C3 layout theorem at a concrete record. -/
theorem update_pairs_live_in_cols_6_7_then_8_9_witness :
    ∃ s', save_to_excel (some sampleCreated) "D3" ["Seminar X"] ["details v3"] = some s' ∧
      getCell s' 2 6 = some "D3" ∧ getCell s' 2 7 = some "details v3" := by
  have hp := probeFrom_creation_shape none (some "Seminar X") (some "D1") "details v1"
  have hrow : rowVersions sampleCreated 2 1 := by
    refine ⟨le_refl 1, by decide, by decide, ?_, ?_⟩
    · intro j hj2 hj1
      exact absurd (hj2.trans hj1) (by omega)
    · intro c hc
      show getCellRow [none, some "Seminar X", some "D1", some "details v1"] c = none
      exact getCellRow_of_length_lt _ _ (by simp only [List.length_cons, List.length_nil]; omega)
  have hdiff : some "details v3" ≠ lastStoredContent sampleCreated 2 := by
    have hlc : lastColumnOf sampleCreated 2 = 6 := hp
    unfold lastStoredContent
    rw [hlc, if_pos (by omega)]
    decide
  obtain ⟨s', heq, h6, h7, _⟩ :=
    (update_pairs_live_in_cols_6_7_then_8_9 sampleCreated "D3" "Seminar X" "details v3"
      (by decide)).1 hrow hdiff
  exact ⟨s', heq, h6, h7⟩

/-- C4: for an existing key holding `k` versions whose candidate content
differs from the most recently stored content, `save_to_excel` appends
exactly one new version entry — the run timestamp and the content — into
the first unused column pair (columns `2*k+4` and `2*k+5`) of that record's
row, every other cell is untouched, and the record's version count rises by
exactly one. -/
theorem changed_content_appends_exactly_one_pair
    (s : Sheet) (date title details : String) (k : Nat)
    (hmem : (some title) ∈ existingTitles s)
    (hrow : rowVersions s ((existingTitles s).indexOf (some title) + 2) k)
    (hdiff : some details ≠ lastStoredContent s ((existingTitles s).indexOf (some title) + 2)) :
    ∃ s', save_to_excel (some s) date [title] [details] = some s' ∧
      getCell s' ((existingTitles s).indexOf (some title) + 2) (2 * k + 4) = some date ∧
      getCell s' ((existingTitles s).indexOf (some title) + 2) (2 * k + 5) = some details ∧
      versionCount s ((existingTitles s).indexOf (some title) + 2) = k ∧
      versionCount s' ((existingTitles s).indexOf (some title) + 2) = k + 1 ∧
      rowVersions s' ((existingTitles s).indexOf (some title) + 2) (k + 1) ∧
      (∀ r' c', 1 ≤ r' → 1 ≤ c' →
        ¬(r' = (existingTitles s).indexOf (some title) + 2 ∧
          (c' = 2 * k + 4 ∨ c' = 2 * k + 5)) →
        getCell s' r' c' = getCell s r' c') := by
  obtain ⟨h1, h2, h3, h4, h5, h6⟩ :=
    processOne_update_spec s date title details k (existingTitles s) hmem hrow hdiff
  exact ⟨_, rfl, h1, h2, h5, h6, h4, h3⟩

/-- Witness for C4 at a concrete one-version record with changed content. -/
theorem changed_content_appends_exactly_one_pair_witness :
    ∃ s', save_to_excel (some sampleCreated) "D2" ["Seminar X"] ["details v2"] = some s' ∧
      getCell s' 2 6 = some "D2" ∧ getCell s' 2 7 = some "details v2" ∧
      versionCount s' 2 = 2 := by
  have hp := probeFrom_creation_shape none (some "Seminar X") (some "D1") "details v1"
  have hrow : rowVersions sampleCreated 2 1 := by
    refine ⟨le_refl 1, by decide, by decide, ?_, ?_⟩
    · intro j hj2 hj1
      exact absurd (hj2.trans hj1) (by omega)
    · intro c hc
      show getCellRow [none, some "Seminar X", some "D1", some "details v1"] c = none
      exact getCellRow_of_length_lt _ _ (by simp only [List.length_cons, List.length_nil]; omega)
  have hdiff : some "details v2" ≠ lastStoredContent sampleCreated 2 := by
    have hlc : lastColumnOf sampleCreated 2 = 6 := hp
    unfold lastStoredContent
    rw [hlc, if_pos (by omega)]
    decide
  obtain ⟨s', heq, h6, h7, _, hvc, _, _⟩ :=
    changed_content_appends_exactly_one_pair sampleCreated "D2" "Seminar X" "details v2" 1
      (by decide) hrow hdiff
  exact ⟨s', heq, h6, h7, hvc⟩

/-- C5: a candidate whose key is not in the loaded table gets exactly one
fresh row appended at the bottom: key in column 2, run timestamp in column
3, content in column 4, no other column of that row written, and every
pre-existing row untouched. -/
theorem new_key_appends_single_fresh_row
    (s : Sheet) (date title details : String)
    (hlen : 1 ≤ s.length) (hmem : (some title) ∉ existingTitles s) :
    ∃ s', save_to_excel (some s) date [title] [details] = some s' ∧
      s' = s ++ [[none, some title, some date, some details]] ∧
      s'.length = s.length + 1 ∧
      getCell s' (s.length + 1) 2 = some title ∧
      getCell s' (s.length + 1) 3 = some date ∧
      getCell s' (s.length + 1) 4 = some details ∧
      (∀ c, ¬(c = 2 ∨ c = 3 ∨ c = 4) → getCell s' (s.length + 1) c = none) ∧
      (∀ r c, r ≤ s.length → getCell s' r c = getCell s r c) := by
  have heq : save_to_excel (some s) date [title] [details] =
      some (processOne (existingTitles s) date s title details) := rfl
  have hcreate := processOne_create (existingTitles s) date s title details hlen hmem
  refine ⟨_, heq, hcreate, ?_, ?_, ?_, ?_, ?_, ?_⟩
  · rw [hcreate]; simp
  · rw [hcreate, getCell_append_eq _ _ _ _ (by omega)]; rfl
  · rw [hcreate, getCell_append_eq _ _ _ _ (by omega)]; rfl
  · rw [hcreate, getCell_append_eq _ _ _ _ (by omega)]; rfl
  · intro c hc
    rw [hcreate, getCell_append_eq _ _ _ _ (by omega)]
    match c with
    | 0 => rfl
    | 1 => rfl
    | 2 => exact absurd (Or.inl rfl) hc
    | 3 => exact absurd (Or.inr (Or.inl rfl)) hc
    | 4 => exact absurd (Or.inr (Or.inr rfl)) hc
    | c + 5 =>
      exact getCellRow_of_length_lt _ _
        (by simp only [List.length_cons, List.length_nil]; omega)
  · intro r c hr
    rw [hcreate, getCell_append_lt _ _ _ _ (by omega)]

/-- Witness for C5: a fresh key on the just-created table. -/
theorem new_key_appends_single_fresh_row_witness :
    ∃ s', save_to_excel (some initialSheet) "D1" ["Seminar Y"] ["dy"] = some s' ∧
      getCell s' 2 2 = some "Seminar Y" ∧ getCell s' 2 3 = some "D1" ∧
      getCell s' 2 4 = some "dy" ∧ getCell s' 2 6 = none := by
  obtain ⟨s', heq, _, _, h2, h3, h4, hother, _⟩ :=
    new_key_appends_single_fresh_row initialSheet "D1" "Seminar Y" "dy"
      (by decide) (by decide)
  exact ⟨s', heq, h2, h3, h4, hother 6 (by omega)⟩

/-- C6 counterexample: the claim says every discovered URL yields exactly
one candidate even on per-URL fetch failure (sentinel-filled).  In the code
a non-200 detail response appends nothing to either list, so one discovered
URL yields zero candidates, and the candidate count differs from the
discovered-URL count. -/
theorem failed_detail_fetch_yields_no_candidate :
    (scrapeAll [{ status := 404, h1 := some "T", sidebar := some "S" }]).1.length = 0 ∧
    (scrapeAll [{ status := 404, h1 := some "T", sidebar := some "S" }]).2.length = 0 ∧
    ([{ status := 404, h1 := some "T", sidebar := some "S" }] : List Page).length = 1 ∧
    ¬((scrapeAll [{ status := 404, h1 := some "T", sidebar := some "S" }]).1.length =
      ([{ status := 404, h1 := some "T", sidebar := some "S" }] : List Page).length) := by
  decide

/-- C6 amended: every discovered URL whose detail fetch returns 200 yields
exactly one (title, details) candidate, sentinel-filled on degraded
extraction; a URL whose fetch fails yields none; hence the number of
candidates equals the number of successfully fetched URLs, not the number
of discovered URLs. -/
theorem each_fetched_page_yields_at_most_one_candidate :
    ∀ (pages : List Page),
      (scrapeAll pages).1.length = (pages.filter (fun p => p.status = 200)).length ∧
      (scrapeAll pages).2.length = (pages.filter (fun p => p.status = 200)).length ∧
      ∀ (page : Page) (ts ds : List String),
        (page.status = 200 ∧ scrape_seminar_page page ts ds =
          (ts ++ [page.h1.getD "No seminar name found"],
           ds ++ [page.sidebar.getD "No details found."])) ∨
        (page.status ≠ 200 ∧ scrape_seminar_page page ts ds = (ts, ds)) := by
  intro pages
  refine ⟨(scrapeAll_lengths pages).1, (scrapeAll_lengths pages).2, ?_⟩
  intro page ts ds
  by_cases h : page.status = 200
  · exact Or.inl ⟨h, scrape_seminar_page_200 page ts ds h⟩
  · exact Or.inr ⟨h, scrape_seminar_page_fail page ts ds h⟩

/-- C7 counterexample: the claim says the process exits non-zero exactly on
a listing-level fetch failure.  In the code a non-200 listing response makes
`get_seminar_links` return `[]`, `main` prints a message and returns
normally, and the process exits 0 — while indeed never reaching
`save_to_excel`. -/
theorem listing_failure_still_exits_zero :
    (main envListingDown (some initialSheet) "D1").exitCode = 0 ∧
    (main envListingDown (some initialSheet) "D1").reconcileInvoked = false ∧
    (main envListingDown (some initialSheet) "D1").finalSheet = some initialSheet ∧
    ¬(envListingDown.listingStatus = 200) ∧
    ¬((main envListingDown (some initialSheet) "D1").exitCode ≠ 0) := by
  decide

/-- C7 amended: a single invocation always exits with status 0 — both on
completion and on a listing-level fetch failure; in the latter case the run
aborts with no candidates, `save_to_excel` is never invoked and the
persisted table is untouched. -/
theorem run_exit_zero_and_no_reconcile_on_listing_failure
    (env : Env) (prior : Option Sheet) (date : String) :
    (main env prior date).exitCode = 0 ∧
    (env.listingStatus ≠ 200 →
      (main env prior date).reconcileInvoked = false ∧
      (main env prior date).finalSheet = prior) := by
  by_cases hl : (get_seminar_links env).isEmpty
  · have hmain : main env prior date = ⟨0, false, prior⟩ := by
      unfold main
      rw [if_pos hl]
    rw [hmain]
    exact ⟨rfl, fun _ => ⟨rfl, rfl⟩⟩
  · have hsome : (save_to_excel prior date
        (scrapeAll ((get_seminar_links env).map env.pages)).1
        (scrapeAll ((get_seminar_links env).map env.pages)).2).isSome := by
      apply save_to_excel_isSome
      rw [(scrapeAll_lengths _).1, (scrapeAll_lengths _).2]
    obtain ⟨s0, hs0⟩ := Option.isSome_iff_exists.1 hsome
    have hmain : main env prior date = ⟨0, true, some s0⟩ := by
      unfold main
      rw [if_neg hl]
      show (match save_to_excel prior date
          (scrapeAll ((get_seminar_links env).map env.pages)).1
          (scrapeAll ((get_seminar_links env).map env.pages)).2 with
        | some s => (⟨0, true, some s⟩ : RunResult)
        | none => (⟨1, true, none⟩ : RunResult)) = _
      rw [hs0]
    rw [hmain]
    refine ⟨rfl, fun hne => absurd ?_ hl⟩
    unfold get_seminar_links
    rw [if_pos hne]
    rfl

/-- Witness for the amended C7 theorem at the 404-listing environment. -/
theorem run_exit_zero_and_no_reconcile_on_listing_failure_witness :
    (main envListingDown none "D2").exitCode = 0 ∧
    (main envListingDown none "D2").reconcileInvoked = false ∧
    (main envListingDown none "D2").finalSheet = none := by
  have h := run_exit_zero_and_no_reconcile_on_listing_failure envListingDown none "D2"
  have h2 := h.2 (by decide)
  exact ⟨h.1, h2.1, h2.2⟩

/-- C8 counterexample: the claim says key uniqueness is preserved for any
candidate batch, including batches repeating a new key.  Starting from the
freshly created header-only table (keys trivially unique), the batch
[("X","a"), ("X","b")] produces two rows both keyed X, because the title
snapshot is taken before the loop. -/
theorem repeated_new_key_duplicates_row :
    keysUnique initialSheet ∧
    save_to_excel (some initialSheet) "D1" ["X", "X"] ["a", "b"] = some sampleDupKeys ∧
    getCell sampleDupKeys 2 2 = some "X" ∧
    getCell sampleDupKeys 3 2 = some "X" ∧
    ¬ keysUnique sampleDupKeys := by
  refine ⟨?_, by decide, by decide, by decide, ?_⟩
  · show (keyCells initialSheet).Nodup
    decide
  · show ¬ (keyCells sampleDupKeys).Nodup
    decide

/-- C8 amended: key uniqueness is preserved by `save_to_excel` for every
batch in which no NEW key (one absent from the loaded table) occurs more
than once; repeated occurrences of existing keys are harmless.  The
counterexample shows the restriction is necessary. -/
theorem keys_unique_preserved_without_repeated_new_key
    (s : Sheet) (date : String) (ts ds : List String) (s' : Sheet)
    (hlen : 1 ≤ s.length) (hu : keysUnique s)
    (hnew : ∀ u, u ∈ ts → (some u) ∉ existingTitles s → ts.count u ≤ 1)
    (h : save_to_excel (some s) date ts ds = some s') :
    keysUnique s' := by
  apply saveLoop_keysUnique (existingTitles s) date ts ds s hlen hu ?_ s' h
  intro u hu2 hnew2
  exact ⟨fun hc => hnew2 ((mem_keyCells s u hlen).1 hc), hnew u hu2 hnew2⟩

/-- Witness for the amended C8 theorem on a batch of two distinct new keys. -/
theorem keys_unique_preserved_without_repeated_new_key_witness :
    keysUnique (initialSheet ++
      [[none, some "A", some "D1", some "a"], [none, some "B", some "D1", some "b"]]) := by
  apply keys_unique_preserved_without_repeated_new_key initialSheet "D1" ["A", "B"] ["a", "b"]
    _ (by decide) (show (keyCells initialSheet).Nodup by decide) ?_ (by decide)
  intro u hu _
  have : u = "A" ∨ u = "B" := by simpa using hu
  rcases this with rfl | rfl <;> decide

/-- C9: `save_to_excel` is append-only — under the structural pairing
invariant (which every program-written sheet satisfies), every cell holding
a value before the call holds the same value after it, for any candidate
batch: prior rows, creation cells and previously written version pairs are
never overwritten or removed. -/
theorem save_to_excel_never_overwrites_cells
    (s s' : Sheet) (date : String) (ts ds : List String)
    (hlen : 1 ≤ s.length) (hp : pairedCells s)
    (h : save_to_excel (some s) date ts ds = some s') :
    ∀ r c v, 1 ≤ r → 1 ≤ c → getCell s r c = some v → getCell s' r c = some v :=
  fun r c v hr hc hv =>
    (saveLoop_mono (existingTitles s) date ts ds s s' hlen hp h).1 r c v hr hc hv

/-- Witness for C9: the header survives a run that creates a record. -/
theorem save_to_excel_never_overwrites_cells_witness :
    getCell (initialSheet ++ [[none, some "X", some "D1", some "x"]]) 1 2 =
      some "Seminar Title" := by
  apply save_to_excel_never_overwrites_cells initialSheet _ "D1" ["X"] ["x"]
    (by decide) pairedCells_initialSheet (by decide) 1 2 "Seminar Title"
    (by omega) (by omega) (by decide)

/-- C10: each call of `scrape_seminar_page` either appends exactly one
element to both lists or appends nothing to either; hence scraping any
page sequence from two empty lists yields lists of equal length, and
`save_to_excel`'s access of `seminar_details[i]` for every
`i < len(seminar_titles)` is in bounds (no `IndexError`, modelled by the
result being `some`). -/
theorem scrape_keeps_lists_aligned_and_save_in_bounds :
    (∀ (page : Page) (ts ds : List String),
      (∃ a b, scrape_seminar_page page ts ds = (ts ++ [a], ds ++ [b])) ∨
      scrape_seminar_page page ts ds = (ts, ds)) ∧
    (∀ pages : List Page, (scrapeAll pages).1.length = (scrapeAll pages).2.length) ∧
    (∀ (pages : List Page) (prior : Option Sheet) (date : String),
      (save_to_excel prior date (scrapeAll pages).1 (scrapeAll pages).2).isSome) := by
  refine ⟨?_, ?_, ?_⟩
  · intro page ts ds
    by_cases h : page.status = 200
    · exact Or.inl ⟨_, _, scrape_seminar_page_200 page ts ds h⟩
    · exact Or.inr (scrape_seminar_page_fail page ts ds h)
  · intro pages
    rw [(scrapeAll_lengths pages).1, (scrapeAll_lengths pages).2]
  · intro pages prior date
    apply save_to_excel_isSome
    rw [(scrapeAll_lengths pages).1, (scrapeAll_lengths pages).2]

end WebMonitor
